import Mathlib

/-!
Shallow embedding of the `strava-chain-checker` core
(`src/strava_chain_tracker.py`, duplicated in
`src/strava_chain_checker_html.py` lines 78-162), together with the
progress-percentage fragment of `generate_html`
(`src/strava_chain_checker_html.py` lines 308-316).

Modelling decisions:
  * Python strings are Lean `String`s; the substring operator `in` is
    `strIn`, a containment check over the character list.
  * Optional text fields (`name`, `description`) are `Option String`;
    Python truthiness (`if activity.name`) is `truthy`, which is false
    on `none` and on the empty string.
  * Distances are exact rationals (`ℚ`).  `float(unithelper.kilometers d)`
    for a stravalib meter quantity `d` is `d / 1000` (`kmOf`).
  * `round(x, 2)` is modelled as round-half-to-even at two decimals
    (`round2`), Python's documented rounding mode.
  * Timestamps (`start_date`) are naturals; `replace(tzinfo=None)` is the
    identity in this model (timezone data is not represented).
  * `activities.sort(key=lambda a: a.start_date)` is a stable merge sort
    by `start_date` (`sortActs`); Python `list.sort` is stable.
  * Python exceptions are `Except String`; division is `pyDivQ`, which
    errors on a zero divisor exactly as Python raises `ZeroDivisionError`.
-/

namespace StravaChain

/-- Input record shape consumed by the core (stravalib activity fields
used by the source: `id`, `name`, `description`, `start_date`,
`distance`, `type`). `distance` is in meters. -/
structure Activity where
  id : Nat
  name : Option String
  description : Option String
  start_date : Nat
  distance : ℚ
  type : String
deriving DecidableEq

/-- Source line 22: `CHAIN_START_EMOJI = '⛓️'`. -/
def CHAIN_START_EMOJI : String := "⛓️"

/-- Source line 23: `CHAIN_END_EMOJI = '⛓️‍💥'`. -/
def CHAIN_END_EMOJI : String := "⛓️‍💥"

/-- Python truthiness of an optional string: `None` and `""` are falsy. -/
def truthy : Option String → Bool
  | none => false
  | some s => !(s == "")

/-- `charsLead xs ys` is true iff `xs` occurs at the head of `ys`
(the leading-segment test underlying substring search). -/
def charsLead : List Char → List Char → Bool
  | [], _ => true
  | _ :: _, [] => false
  | a :: as, b :: bs => a == b && charsLead as bs

/-- `charsContain sub l` is true iff `sub` occurs contiguously inside `l`. -/
def charsContain (sub : List Char) : List Char → Bool
  | [] => charsLead sub []
  | b :: t => charsLead sub (b :: t) || charsContain sub t

/-- Python `sub in s` for strings. -/
def strIn (sub s : String) : Bool := charsContain sub.toList s.toList

/-- One arm of `has_chain_start_emoji` (source lines 82 and 86):
`field and CHAIN_START_EMOJI in field and CHAIN_END_EMOJI not in field`. -/
def fieldHasStart (t : Option String) : Bool :=
  truthy t && strIn CHAIN_START_EMOJI (t.getD "") &&
    !strIn CHAIN_END_EMOJI (t.getD "")

/-- One arm of `has_chain_end_emoji` (source lines 95 and 99):
`field and CHAIN_END_EMOJI in field`. -/
def fieldHasEnd (t : Option String) : Bool :=
  truthy t && strIn CHAIN_END_EMOJI (t.getD "")

/-- Source lines 79-89: start marker in `name` or in `description`,
each field checked with the end-marker exclusion. -/
def has_chain_start_emoji (a : Activity) : Bool :=
  fieldHasStart a.name || fieldHasStart a.description

/-- Source lines 92-102: end marker in `name` or in `description`. -/
def has_chain_end_emoji (a : Activity) : Bool :=
  fieldHasEnd a.name || fieldHasEnd a.description

/-- Round half to even at integer precision (Python `round` semantics
on exact values), computed on the reduced fraction: with `x = p/q`
(`q > 0`), `n = ⌊x⌋` and remainder `r = p - n*q`, the fractional part
`r/q` is compared with one half via `2*r` against `q`. -/
def roundHalfEven (x : ℚ) : ℤ :=
  let p := x.num
  let q := (x.den : ℤ)
  let n := Int.fdiv p q
  let r := p - n * q
  if 2 * r < q then n
  else if q < 2 * r then n + 1
  else if n % 2 = 0 then n else n + 1

/-- Source line 145: `round(distance_km, 2)`. -/
def round2 (q : ℚ) : ℚ := (roundHalfEven (q * 100) : ℚ) / 100

/-- Source line 121: `float(unithelper.kilometers(activity.distance))`,
meters to kilometers. -/
def kmOf (a : Activity) : ℚ := a.distance / 1000

/-- The per-member dictionary built at source lines 141-148. -/
structure ChainEntry where
  id : Nat
  name : Option String
  date : Nat
  distance_km : ℚ
  is_chain_start : Bool
  is_chain_end : Bool
deriving DecidableEq

/-- The chain dictionary built at source lines 131-136 and mutated at
lines 141-151. -/
structure Chain where
  start_date : Nat
  end_date : Nat
  activities : List ChainEntry
  total_km : ℚ
deriving DecidableEq

/-- The entry appended for an activity (source lines 141-148): the stored
`distance_km` is the rounded value, the flags are the two predicates. -/
def entryOf (a : Activity) : ChainEntry :=
  { id := a.id
    name := a.name
    date := a.start_date
    distance_km := round2 (kmOf a)
    is_chain_start := has_chain_start_emoji a
    is_chain_end := has_chain_end_emoji a }

/-- Source lines 131-136: the freshly created chain for a start-marked
activity, with no members yet and a zero running total. -/
def freshChain (a : Activity) : Chain :=
  { start_date := a.start_date
    end_date := a.start_date
    activities := []
    total_km := 0 }

/-- Source lines 141-151: append the member entry, add the unrounded
kilometers to `total_km`, update `end_date`. -/
def addEntry (c : Chain) (a : Activity) : Chain :=
  { c with
    activities := c.activities ++ [entryOf a]
    total_km := c.total_km + kmOf a
    end_date := a.start_date }

/-- Loop state of `aggregate_kilometers`: `chains` (line 110),
`current` (line 111) and `in_chain` (line 112). -/
structure SegState where
  chains : List Chain
  current : Option Chain
  in_chain : Bool
deriving DecidableEq

/-- Source lines 126-128: `if in_chain and current_chain is not None:
chains.append(current_chain)`. -/
def sealOpen (inc : Bool) (cur : Option Chain) (chains : List Chain) :
    List Chain :=
  match inc, cur with
  | true, some c => chains ++ [c]
  | _, _ => chains

/-- One iteration of the loop at source lines 115-157 for activity `a`. -/
def step (st : SegState) (a : Activity) : SegState :=
  let st1 : SegState :=
    if has_chain_start_emoji a then
      { chains := sealOpen st.in_chain st.current st.chains
        current := some (freshChain a)
        in_chain := true }
    else st
  match st1.in_chain, st1.current with
  | true, some c =>
    let c2 := addEntry c a
    if has_chain_end_emoji a then
      { chains := st1.chains ++ [c2], current := none, in_chain := false }
    else
      { chains := st1.chains, current := some c2, in_chain := true }
  | _, _ => st1

/-- The loop state before the first iteration (source lines 110-112). -/
def initState : SegState := { chains := [], current := none, in_chain := false }

/-- Source lines 159-161: after the loop, append the still-open chain if
its member list is non-empty. -/
def finalChains (st : SegState) : List Chain :=
  match st.in_chain, st.current with
  | true, some c => if c.activities.isEmpty then st.chains else st.chains ++ [c]
  | _, _ => st.chains

/-- Sort comparison of source line 108: ascending by `start_date`. -/
def leDate (a b : Activity) : Bool := decide (a.start_date ≤ b.start_date)

/-- Source line 108: `activities.sort(key=lambda a: a.start_date)`. -/
def sortActs (l : List Activity) : List Activity := l.mergeSort leDate

/-- The loop plus the trailing flush, over an already-sorted list. -/
def runSeg (sorted : List Activity) : List Chain :=
  finalChains (sorted.foldl step initState)

/-- Source lines 105-163: `aggregate_kilometers` (the spec's `segment`). -/
def aggregate_kilometers (l : List Activity) : List Chain :=
  runSeg (sortActs l)

/-- Source line 108 sorts the caller's list in place; this variant also
returns the caller-visible post-call value of the argument list (first
component) next to the returned chains (second component). -/
def aggregate_kilometers_frame (l : List Activity) :
    List Activity × List Chain :=
  (sortActs l, runSeg (sortActs l))

/-- Source line 76: keep only activities with `type == 'Ride'`. -/
def filter_ride_activities (l : List Activity) : List Activity :=
  l.filter (fun a => a.type == "Ride")

/-- Python division on rationals: raises `ZeroDivisionError` on a zero
divisor, otherwise returns the exact quotient. -/
def pyDivQ (x y : ℚ) : Except String ℚ :=
  if y = 0 then Except.error "ZeroDivisionError" else Except.ok (x / y)

/-- The progress-percent computations of `generate_html` for one chain
(html source lines 308-316): fold the rounded `distance_km` fields into a
running total and divide each running total by the chain's `total_km`. -/
def progressRows (total : ℚ) (running : ℚ) :
    List ChainEntry → Except String (List ℚ)
  | [] => Except.ok []
  | e :: rest =>
    let r := running + e.distance_km
    match pyDivQ r total with
    | Except.error m => Except.error m
    | Except.ok q =>
      match progressRows total r rest with
      | Except.error m => Except.error m
      | Except.ok qs => Except.ok (q * 100 :: qs)

/-- Progress percentages of one chain, running total starting at 0
(html source line 308). -/
def chainProgress (c : Chain) : Except String (List ℚ) :=
  progressRows c.total_km 0 c.activities

/-- The division-relevant skeleton of `generate_html` (html source lines
273-338): the progress-percent table of every chain, with the first
raised `ZeroDivisionError` propagated. -/
def generate_html_progress : List Chain → Except String (List (List ℚ))
  | [] => Except.ok []
  | c :: cs =>
    match chainProgress c with
    | Except.error m => Except.error m
    | Except.ok ps =>
      match generate_html_progress cs with
      | Except.error m => Except.error m
      | Except.ok rest => Except.ok (ps :: rest)

/-! ### Characterization of one loop iteration -/

/-- Start-marked activity that also ends a chain: the open chain (if any)
is sealed, a fresh singleton chain is built and immediately sealed. -/
lemma step_start_end (chains : List Chain) (cur : Option Chain) (inc : Bool)
    (a : Activity) (hs : has_chain_start_emoji a = true)
    (he : has_chain_end_emoji a = true) :
    step ⟨chains, cur, inc⟩ a =
      ⟨sealOpen inc cur chains ++ [addEntry (freshChain a) a], none, false⟩ := by
  simp [step, hs, he]

/-- Start-marked activity with no end marker: the open chain (if any) is
sealed and the fresh chain stays open with the activity as sole member. -/
lemma step_start_noend (chains : List Chain) (cur : Option Chain) (inc : Bool)
    (a : Activity) (hs : has_chain_start_emoji a = true)
    (he : has_chain_end_emoji a = false) :
    step ⟨chains, cur, inc⟩ a =
      ⟨sealOpen inc cur chains, some (addEntry (freshChain a) a), true⟩ := by
  simp [step, hs, he]

/-- Unmarked-start activity inside an open chain, with an end marker:
the activity joins the chain and the chain is sealed. -/
lemma step_nostart_open_end (chains : List Chain) (c : Chain) (a : Activity)
    (hs : has_chain_start_emoji a = false)
    (he : has_chain_end_emoji a = true) :
    step ⟨chains, some c, true⟩ a = ⟨chains ++ [addEntry c a], none, false⟩ := by
  simp [step, hs, he]

/-- Unmarked-start activity inside an open chain, no end marker: the
activity joins the chain, which stays open. -/
lemma step_nostart_open_noend (chains : List Chain) (c : Chain) (a : Activity)
    (hs : has_chain_start_emoji a = false)
    (he : has_chain_end_emoji a = false) :
    step ⟨chains, some c, true⟩ a = ⟨chains, some (addEntry c a), true⟩ := by
  simp [step, hs, he]

/-- Activity without a start marker while no chain object exists:
the state is unchanged (the activity is dropped). -/
lemma step_nostart_none (chains : List Chain) (inc : Bool) (a : Activity)
    (hs : has_chain_start_emoji a = false) :
    step ⟨chains, none, inc⟩ a = ⟨chains, none, inc⟩ := by
  cases inc <;> simp [step, hs]

/-- Activity without a start marker while `in_chain` is false:
the state is unchanged (the activity is dropped). -/
lemma step_nostart_notin (chains : List Chain) (cur : Option Chain)
    (a : Activity) (hs : has_chain_start_emoji a = false) :
    step ⟨chains, cur, false⟩ a = ⟨chains, cur, false⟩ := by
  cases cur <;> simp [step, hs]

/-! ### Shared evaluation helpers -/

lemma sortActs_single (a : Activity) : sortActs [a] = [a] :=
  List.mergeSort_singleton a

lemma agg_single (a : Activity) : aggregate_kilometers [a] = runSeg [a] := by
  unfold aggregate_kilometers
  rw [sortActs_single]

lemma round2_zero : round2 0 = 0 := by
  simp [round2, roundHalfEven]

/-! ### Invariant: every chain ever sealed has a non-empty member list -/

/-- Loop-state invariant for claim C1: all sealed chains and the open
chain (if any) have at least one member. -/
def GoodState (st : SegState) : Prop :=
  (∀ c ∈ st.chains, c.activities ≠ []) ∧
    ∀ c, st.current = some c → c.activities ≠ []

lemma addEntry_activities_ne_nil (c : Chain) (a : Activity) :
    (addEntry c a).activities ≠ [] := by
  simp [addEntry]

lemma goodState_step (st : SegState) (a : Activity) (h : GoodState st) :
    GoodState (step st a) := by
  obtain ⟨h1, h2⟩ := h
  obtain ⟨chains, cur, inc⟩ := st
  by_cases hs : has_chain_start_emoji a = true
  · by_cases he : has_chain_end_emoji a = true
    · rw [step_start_end chains cur inc a hs he]
      refine ⟨?_, by simp⟩
      intro c hc
      rcases List.mem_append.mp hc with hmem | hmem
      · cases inc <;> cases cur <;> simp [sealOpen] at hmem
        · exact h1 c hmem
        · exact h1 c hmem
        · exact h1 c hmem
        · rcases hmem with hm | hm
          · exact h1 c hm
          · rw [hm]
            exact h2 _ rfl
      · rw [List.mem_singleton.mp hmem]
        exact addEntry_activities_ne_nil _ _
    · rw [step_start_noend chains cur inc a hs (by simpa using he)]
      refine ⟨?_, ?_⟩
      · intro c hc
        cases inc <;> cases cur <;> simp [sealOpen] at hc
        · exact h1 c hc
        · exact h1 c hc
        · exact h1 c hc
        · rcases hc with hm | hm
          · exact h1 c hm
          · rw [hm]; exact h2 _ rfl
      · intro c hc
        simp only [Option.some.injEq] at hc
        rw [← hc]
        exact addEntry_activities_ne_nil _ _
  · replace hs : has_chain_start_emoji a = false := by simpa using hs
    cases inc
    · rw [step_nostart_notin chains cur a hs]
      exact ⟨h1, h2⟩
    · cases cur with
      | none =>
        rw [step_nostart_none chains true a hs]
        exact ⟨h1, h2⟩
      | some c =>
        by_cases he : has_chain_end_emoji a = true
        · rw [step_nostart_open_end chains c a hs he]
          refine ⟨?_, by simp⟩
          intro d hd
          rcases List.mem_append.mp hd with hm | hm
          · exact h1 d hm
          · rw [List.mem_singleton.mp hm]
            exact addEntry_activities_ne_nil _ _
        · rw [step_nostart_open_noend chains c a hs (by simpa using he)]
          refine ⟨h1, ?_⟩
          intro d hd
          simp only [Option.some.injEq] at hd
          rw [← hd]
          exact addEntry_activities_ne_nil _ _

lemma goodState_foldl (l : List Activity) :
    ∀ st : SegState, GoodState st → GoodState (l.foldl step st) := by
  induction l with
  | nil => intro st h; exact h
  | cons a t ih =>
    intro st h
    exact ih (step st a) (goodState_step st a h)

lemma goodState_finalChains (st : SegState) (h : GoodState st) :
    ∀ c ∈ finalChains st, c.activities ≠ [] := by
  obtain ⟨h1, h2⟩ := h
  obtain ⟨chains, cur, inc⟩ := st
  intro c hc
  cases inc <;> cases cur <;> simp [finalChains] at hc
  · exact h1 c hc
  · exact h1 c hc
  · exact h1 c hc
  · rename_i c0
    by_cases hemp : c0.activities = []
    · rw [if_pos hemp] at hc
      exact h1 c hc
    · rw [if_neg hemp] at hc
      rcases List.mem_append.mp hc with hm | hm
      · exact h1 c hm
      · rw [List.mem_singleton.mp hm]
        exact h2 _ rfl

/-- C1: every chain appearing in the output of `aggregate_kilometers`
has a non-empty `activities` list, for every input sequence — including
chains sealed because a new start marker preempted them and the trailing
open chain sealed at end of input. -/
theorem chains_members_nonempty (l : List Activity) :
    ∀ c ∈ aggregate_kilometers l, c.activities ≠ [] := by
  intro c hc
  have hgood : GoodState ((sortActs l).foldl step initState) :=
    goodState_foldl (sortActs l) initState (by constructor <;> simp [initState])
  exact goodState_finalChains _ hgood c hc

/-- Concrete activity for the C1 witness: start marker in the name,
distance 0 m, day 5. -/
def actC1 : Activity :=
  { id := 11
    name := some "⛓️ morning ride"
    description := none
    start_date := 5
    distance := 0
    type := "Ride" }

/-- The chain `aggregate_kilometers [actC1]` produces. -/
def chC1 : Chain :=
  { start_date := 5
    end_date := 5
    activities := [{ id := 11
                     name := some "⛓️ morning ride"
                     date := 5
                     distance_km := 0
                     is_chain_start := true
                     is_chain_end := false }]
    total_km := 0 }

lemma agg_actC1 : aggregate_kilometers [actC1] = [chC1] := by
  have hs : has_chain_start_emoji actC1 = true := by decide
  have he : has_chain_end_emoji actC1 = false := by decide
  have hk : kmOf actC1 = 0 := by simp [kmOf, actC1]
  rw [agg_single]
  unfold runSeg
  simp only [List.foldl_cons, List.foldl_nil]
  rw [show (initState : SegState) = ⟨[], none, false⟩ from rfl,
    step_start_noend [] none false actC1 hs he]
  simp only [finalChains, sealOpen, addEntry, freshChain, entryOf, hs, he, hk,
    round2_zero, List.nil_append, zero_add]
  simp [actC1, chC1]

/-- Witness for C1 at a concrete input. -/
theorem chains_members_nonempty_wit :
    chC1 ∈ aggregate_kilometers [actC1] ∧ chC1.activities ≠ [] := by
  have hmem : chC1 ∈ aggregate_kilometers [actC1] := by
    rw [agg_actC1]; exact List.mem_singleton.mpr rfl
  exact ⟨hmem, chains_members_nonempty [actC1] chC1 hmem⟩

/-! ### C2: an activity carrying both markers -/

/-- The singleton chain a both-markers activity produces: the activity is
the sole member and the stored total is its unrounded kilometers. -/
def singletonChain (a : Activity) : Chain :=
  { start_date := a.start_date
    end_date := a.start_date
    activities := [entryOf a]
    total_km := kmOf a }

/-- C2: when an activity has both `is_chain_start` and `is_chain_end`,
one loop step seals the previously open chain (if any), opens a fresh
chain with this activity as its sole member (flagged both start and
end), and immediately seals that singleton chain; in particular a single
such activity alone yields exactly one singleton chain whose
`total_km` is the activity's (unrounded) kilometers `kmOf a`. -/
theorem both_markers_singleton_chain (st : SegState) (a : Activity)
    (hs : has_chain_start_emoji a = true)
    (he : has_chain_end_emoji a = true) :
    step st a =
      ⟨sealOpen st.in_chain st.current st.chains ++ [singletonChain a],
        none, false⟩ ∧
    (entryOf a).is_chain_start = true ∧ (entryOf a).is_chain_end = true ∧
    aggregate_kilometers [a] = [singletonChain a] := by
  have hsingle : addEntry (freshChain a) a = singletonChain a := by
    simp [addEntry, freshChain, singletonChain]
  constructor
  · obtain ⟨chains, cur, inc⟩ := st
    rw [step_start_end chains cur inc a hs he, hsingle]
  refine ⟨by simp [entryOf, hs], by simp [entryOf, he], ?_⟩
  rw [agg_single]
  unfold runSeg
  simp only [List.foldl_cons, List.foldl_nil]
  rw [show (initState : SegState) = ⟨[], none, false⟩ from rfl,
    step_start_end [] none false a hs he, hsingle]
  simp [finalChains, sealOpen]

/-- Concrete activity for the C2 witness: end marker in the name, start
marker in the description, so both predicates hold. -/
def actC2 : Activity :=
  { id := 22
    name := some "ride done ⛓️‍💥"
    description := some "restart ⛓️"
    start_date := 3
    distance := 7000
    type := "Ride" }

/-- Witness for C2 at a concrete input with no chain open beforehand. -/
theorem both_markers_singleton_chain_wit :
    step initState actC2 =
      ⟨sealOpen initState.in_chain initState.current initState.chains ++
        [singletonChain actC2], none, false⟩ ∧
    (entryOf actC2).is_chain_start = true ∧
    (entryOf actC2).is_chain_end = true ∧
    aggregate_kilometers [actC2] = [singletonChain actC2] :=
  both_markers_singleton_chain initState actC2 (by decide) (by decide)

/-! ### C3: totals accumulate the unrounded kilometers -/

/-- Provenance of a chain from a universe `u` of activities: the chain's
members are exactly the entries (`entryOf`, with the rounded display
field) of some sublist `src` of `u`, while the stored `total_km` is the
sum of the unrounded kilometers `kmOf` of those same activities. -/
def ChainFrom (u : List Activity) (c : Chain) : Prop :=
  ∃ src : List Activity, src.Sublist u ∧ c.activities = src.map entryOf ∧
    c.total_km = (src.map kmOf).sum

/-- All chains of a loop state have `ChainFrom` provenance in `u`. -/
def SegFrom (u : List Activity) (st : SegState) : Prop :=
  (∀ c ∈ st.chains, ChainFrom u c) ∧
    ∀ c, st.current = some c → ChainFrom u c

lemma chainFrom_mono {u v : List Activity} {c : Chain} (huv : u.Sublist v)
    (h : ChainFrom u c) : ChainFrom v c := by
  obtain ⟨src, hsub, hact, htot⟩ := h
  exact ⟨src, hsub.trans huv, hact, htot⟩

lemma chainFrom_fresh (u : List Activity) (a : Activity) :
    ChainFrom u (freshChain a) :=
  ⟨[], List.nil_sublist u, by simp [freshChain], by simp [freshChain]⟩

lemma chainFrom_addEntry {u : List Activity} {c : Chain} (a : Activity)
    (h : ChainFrom u c) : ChainFrom (u ++ [a]) (addEntry c a) := by
  obtain ⟨src, hsub, hact, htot⟩ := h
  refine ⟨src ++ [a], hsub.append (List.Sublist.refl [a]), ?_, ?_⟩
  · simp [addEntry, hact]
  · simp [addEntry, htot]

lemma segFrom_step {u : List Activity} {st : SegState} (a : Activity)
    (h : SegFrom u st) : SegFrom (u ++ [a]) (step st a) := by
  obtain ⟨h1, h2⟩ := h
  obtain ⟨chains, cur, inc⟩ := st
  have hu : u.Sublist (u ++ [a]) := List.sublist_append_left u [a]
  have hseal : ∀ c ∈ sealOpen inc cur chains, ChainFrom (u ++ [a]) c := by
    intro c hc
    cases inc <;> cases cur <;> simp [sealOpen] at hc
    · exact chainFrom_mono hu (h1 c hc)
    · exact chainFrom_mono hu (h1 c hc)
    · exact chainFrom_mono hu (h1 c hc)
    · rcases hc with hm | hm
      · exact chainFrom_mono hu (h1 c hm)
      · rw [hm]
        exact chainFrom_mono hu (h2 _ rfl)
  by_cases hs : has_chain_start_emoji a = true
  · by_cases he : has_chain_end_emoji a = true
    · rw [step_start_end chains cur inc a hs he]
      refine ⟨?_, by simp⟩
      intro c hc
      rcases List.mem_append.mp hc with hm | hm
      · exact hseal c hm
      · rw [List.mem_singleton.mp hm]
        exact chainFrom_addEntry a (chainFrom_fresh u a)
    · rw [step_start_noend chains cur inc a hs (by simpa using he)]
      refine ⟨hseal, ?_⟩
      intro c hc
      simp only [Option.some.injEq] at hc
      rw [← hc]
      exact chainFrom_addEntry a (chainFrom_fresh u a)
  · replace hs : has_chain_start_emoji a = false := by simpa using hs
    cases inc
    · rw [step_nostart_notin chains cur a hs]
      refine ⟨fun c hc => chainFrom_mono hu (h1 c hc), ?_⟩
      intro c hc
      exact chainFrom_mono hu (h2 c hc)
    · cases cur with
      | none =>
        rw [step_nostart_none chains true a hs]
        refine ⟨fun c hc => chainFrom_mono hu (h1 c hc), ?_⟩
        intro c hc
        exact chainFrom_mono hu (h2 c hc)
      | some c0 =>
        by_cases he : has_chain_end_emoji a = true
        · rw [step_nostart_open_end chains c0 a hs he]
          refine ⟨?_, by simp⟩
          intro c hc
          rcases List.mem_append.mp hc with hm | hm
          · exact chainFrom_mono hu (h1 c hm)
          · rw [List.mem_singleton.mp hm]
            exact chainFrom_addEntry a (h2 _ rfl)
        · rw [step_nostart_open_noend chains c0 a hs (by simpa using he)]
          refine ⟨fun c hc => chainFrom_mono hu (h1 c hc), ?_⟩
          intro c hc
          simp only [Option.some.injEq] at hc
          rw [← hc]
          exact chainFrom_addEntry a (h2 _ rfl)

lemma segFrom_foldl (l : List Activity) :
    ∀ (u : List Activity) (st : SegState), SegFrom u st →
      SegFrom (u ++ l) (l.foldl step st) := by
  induction l with
  | nil => intro u st h; simpa using h
  | cons a t ih =>
    intro u st h
    have hstep := segFrom_step a h
    have hrest := ih (u ++ [a]) (step st a) hstep
    simpa [List.append_assoc] using hrest

lemma segFrom_finalChains {u : List Activity} {st : SegState}
    (h : SegFrom u st) : ∀ c ∈ finalChains st, ChainFrom u c := by
  obtain ⟨h1, h2⟩ := h
  obtain ⟨chains, cur, inc⟩ := st
  intro c hc
  cases inc <;> cases cur <;> simp [finalChains] at hc
  · exact h1 c hc
  · exact h1 c hc
  · exact h1 c hc
  · rename_i c0
    by_cases hemp : c0.activities = []
    · rw [if_pos hemp] at hc
      exact h1 c hc
    · rw [if_neg hemp] at hc
      rcases List.mem_append.mp hc with hm | hm
      · exact h1 c hm
      · rw [List.mem_singleton.mp hm]
        exact h2 _ rfl

/-- C3: for every chain emitted by `aggregate_kilometers`, the stored
`total_km` is the sum of the unrounded per-activity kilometers of its
members: the members are the entries of a sublist `src` of the sorted
input, each stored with the 2-decimal-rounded `distance_km`, while the
total is `(src.map kmOf).sum`, the sum of the unrounded values, so the
display rounding never enters the aggregate. -/
theorem total_km_sum_unrounded (l : List Activity) (c : Chain)
    (hc : c ∈ aggregate_kilometers l) : ChainFrom (sortActs l) c := by
  have hinit : SegFrom ([] : List Activity) initState := by
    constructor <;> simp [initState]
  have h := segFrom_foldl (sortActs l) [] initState hinit
  rw [List.nil_append] at h
  exact segFrom_finalChains h c hc

/-- Witness for C3 at a concrete input. -/
theorem total_km_sum_unrounded_wit :
    chC1 ∈ aggregate_kilometers [actC1] ∧ ChainFrom (sortActs [actC1]) chC1 := by
  have hmem : chC1 ∈ aggregate_kilometers [actC1] := by
    rw [agg_actC1]
    exact List.mem_singleton.mpr rfl
  exact ⟨hmem, total_km_sum_unrounded [actC1] chC1 hmem⟩

/-! ### C5: output chains are ordered by start date -/

lemma addEntry_start_date (c : Chain) (a : Activity) :
    (addEntry c a).start_date = c.start_date := by
  simp [addEntry]

/-- The start dates tracked by a loop state: sealed chains in order,
then the open chain (if any). -/
def stateDates (st : SegState) : List Nat :=
  st.chains.map Chain.start_date ++
    (match st.current with
     | some c => [c.start_date]
     | none => [])

/-- One loop step only drops tracked dates or appends the date of the
processed activity at the end. -/
lemma stateDates_step_sublist (st : SegState) (a : Activity) :
    (stateDates (step st a)).Sublist (stateDates st ++ [a.start_date]) := by
  obtain ⟨chains, cur, inc⟩ := st
  by_cases hs : has_chain_start_emoji a = true
  · have hafter : ∀ st2 : SegState,
        stateDates st2 = (sealOpen inc cur chains).map Chain.start_date ++
          [a.start_date] →
        (stateDates st2).Sublist
          (stateDates ⟨chains, cur, inc⟩ ++ [a.start_date]) := by
      intro st2 heq
      rw [heq]
      cases inc <;> cases cur <;> simp [sealOpen, stateDates]
    by_cases he : has_chain_end_emoji a = true
    · rw [step_start_end chains cur inc a hs he]
      refine hafter _ ?_
      simp [stateDates, addEntry_start_date, freshChain]
    · rw [step_start_noend chains cur inc a hs (by simpa using he)]
      refine hafter _ ?_
      simp [stateDates, addEntry_start_date, freshChain]
  · replace hs : has_chain_start_emoji a = false := by simpa using hs
    cases inc
    · rw [step_nostart_notin chains cur a hs]
      exact List.sublist_append_left _ _
    · cases cur with
      | none =>
        rw [step_nostart_none chains true a hs]
        exact List.sublist_append_left _ _
      | some c0 =>
        by_cases he : has_chain_end_emoji a = true
        · rw [step_nostart_open_end chains c0 a hs he]
          have heq : stateDates ⟨chains ++ [addEntry c0 a], none, false⟩ =
              stateDates ⟨chains, some c0, true⟩ := by
            simp [stateDates, addEntry_start_date]
          rw [heq]
          exact List.sublist_append_left _ _
        · rw [step_nostart_open_noend chains c0 a hs (by simpa using he)]
          have heq : stateDates ⟨chains, some (addEntry c0 a), true⟩ =
              stateDates ⟨chains, some c0, true⟩ := by
            simp [stateDates, addEntry_start_date]
          rw [heq]
          exact List.sublist_append_left _ _

/-- Fold invariant: over a date-sorted activity list, the tracked dates
stay sorted. -/
lemma stateDates_foldl (l : List Activity) :
    ∀ st : SegState, (stateDates st).Pairwise (· ≤ ·) →
      (∀ x ∈ stateDates st, ∀ b ∈ l, x ≤ b.start_date) →
      l.Pairwise (fun p q => p.start_date ≤ q.start_date) →
      (stateDates (l.foldl step st)).Pairwise (· ≤ ·) := by
  induction l with
  | nil => intro st h1 _ _; exact h1
  | cons a t ih =>
    intro st h1 h2 h3
    have hsub := stateDates_step_sublist st a
    have hpair : (stateDates st ++ [a.start_date]).Pairwise (· ≤ ·) := by
      rw [List.pairwise_append]
      refine ⟨h1, List.pairwise_singleton _ _, ?_⟩
      intro x hx y hy
      rw [List.mem_singleton.mp hy]
      exact h2 x hx a (List.mem_cons_self a t)
    refine ih (step st a) (List.Pairwise.sublist hsub hpair) ?_
      (List.Pairwise.of_cons h3)
    intro x hx b hb
    have hx2 := hsub.subset hx
    rcases List.mem_append.mp hx2 with hm | hm
    · exact h2 x hm b (List.mem_cons_of_mem a hb)
    · rw [List.mem_singleton.mp hm]
      exact (List.pairwise_cons.mp h3).1 b hb

/-- The dates of the emitted chains form a sublist of the tracked dates. -/
lemma finalChains_dates_sublist (st : SegState) :
    ((finalChains st).map Chain.start_date).Sublist (stateDates st) := by
  obtain ⟨chains, cur, inc⟩ := st
  cases inc <;> cases cur <;> simp [finalChains, stateDates]
  · rename_i c0
    by_cases hemp : c0.activities = []
    · rw [if_pos hemp]
      exact List.sublist_append_left _ _
    · rw [if_neg hemp]
      simp

/-- The sorted input list is pairwise non-decreasing on `start_date`. -/
lemma sortActs_pairwise (l : List Activity) :
    (sortActs l).Pairwise (fun p q => p.start_date ≤ q.start_date) := by
  have h := @List.sorted_mergeSort Activity leDate
    (fun a b c hab hbc => by
      simp only [leDate, decide_eq_true_eq] at *
      exact le_trans hab hbc)
    (fun a b => by
      simp only [leDate, Bool.or_eq_true, decide_eq_true_eq]
      exact Nat.le_total _ _) l
  refine h.imp ?_
  intro p q hpq
  simpa [leDate] using hpq

/-- C5: for every input sequence, the chains in the output of
`aggregate_kilometers` appear in non-decreasing order of their
`start_date` fields. -/
theorem chains_sorted_by_start (l : List Activity) :
    ((aggregate_kilometers l).map Chain.start_date).Pairwise (· ≤ ·) := by
  have hfold : (stateDates ((sortActs l).foldl step initState)).Pairwise (· ≤ ·) := by
    refine stateDates_foldl (sortActs l) initState ?_ ?_ (sortActs_pairwise l)
    · simp [stateDates, initState]
    · simp [stateDates, initState]
  exact List.Pairwise.sublist (finalChains_dates_sublist _) hfold

/-! ### C4: invariance under input permutation -/

lemma sortActs_eq_of_perm {l₁ l₂ : List Activity} (hp : l₁.Perm l₂)
    (hd : (l₁.map Activity.start_date).Nodup) :
    sortActs l₁ = sortActs l₂ := by
  have hperm₁ : (sortActs l₁).Perm l₁ := List.mergeSort_perm l₁ leDate
  have hperm₂ : (sortActs l₂).Perm l₂ := List.mergeSort_perm l₂ leDate
  have hp12 : (sortActs l₁).Perm (sortActs l₂) :=
    hperm₁.trans (hp.trans hperm₂.symm)
  have hd₁ : ((sortActs l₁).map Activity.start_date).Nodup :=
    ((hperm₁.map Activity.start_date).symm).nodup hd
  have hd₂ : ((sortActs l₂).map Activity.start_date).Nodup :=
    ((hperm₂.map Activity.start_date).symm).nodup ((hp.map Activity.start_date).nodup hd)
  have hlt₁ : (sortActs l₁).Pairwise (fun p q => p.start_date < q.start_date) := by
    have hne : (sortActs l₁).Pairwise (fun p q => p.start_date ≠ q.start_date) :=
      List.pairwise_map.mp hd₁
    exact ((sortActs_pairwise l₁).and hne).imp (fun h => lt_of_le_of_ne h.1 h.2)
  have hlt₂ : (sortActs l₂).Pairwise (fun p q => p.start_date < q.start_date) := by
    have hne : (sortActs l₂).Pairwise (fun p q => p.start_date ≠ q.start_date) :=
      List.pairwise_map.mp hd₂
    exact ((sortActs_pairwise l₂).and hne).imp (fun h => lt_of_le_of_ne h.1 h.2)
  haveI : IsAntisymm Activity (fun p q => p.start_date < q.start_date) :=
    ⟨fun p q h1 h2 => absurd (h1.trans h2) (lt_irrefl _)⟩
  exact List.eq_of_perm_of_sorted hp12 hlt₁ hlt₂

/-- C4: for activity lists with pairwise distinct start dates,
`aggregate_kilometers` gives the same output on any permutation of the
input, because the input is first sorted ascending by `start_date`. -/
theorem perm_invariance (l₁ l₂ : List Activity) (hp : l₁.Perm l₂)
    (hd : (l₁.map Activity.start_date).Nodup) :
    aggregate_kilometers l₁ = aggregate_kilometers l₂ := by
  unfold aggregate_kilometers
  rw [sortActs_eq_of_perm hp hd]

/-- Concrete activities for the C4 witness, distinct days. -/
def actC4a : Activity :=
  { id := 41
    name := some "⛓️ first"
    description := none
    start_date := 1
    distance := 0
    type := "Ride" }

def actC4b : Activity :=
  { id := 42
    name := none
    description := none
    start_date := 2
    distance := 0
    type := "Ride" }

/-- Witness for C4 at a concrete two-element permutation. -/
theorem perm_invariance_wit :
    ([actC4a, actC4b].Perm [actC4b, actC4a]) ∧
    ([actC4a, actC4b].map Activity.start_date).Nodup ∧
    aggregate_kilometers [actC4a, actC4b] =
      aggregate_kilometers [actC4b, actC4a] := by
  have hp : [actC4a, actC4b].Perm [actC4b, actC4a] :=
    List.Perm.swap actC4b actC4a []
  have hd : ([actC4a, actC4b].map Activity.start_date).Nodup := by decide
  exact ⟨hp, hd, perm_invariance _ _ hp hd⟩

/-! ### C6: the start predicate, field by field -/

lemma strIn_start_empty : strIn CHAIN_START_EMOJI "" = false := by decide

lemma strIn_end_empty : strIn CHAIN_END_EMOJI "" = false := by decide

/-- The start classification as the spec words it (§4.1): some present
text field contains the start marker and does not contain the end
marker; a missing field never contributes. Stated spec-side, to be
compared with the source predicate `has_chain_start_emoji`. -/
def startSignalSpec (a : Activity) : Prop :=
  (∃ s, a.name = some s ∧ strIn CHAIN_START_EMOJI s = true ∧
    strIn CHAIN_END_EMOJI s = false) ∨
  (∃ s, a.description = some s ∧ strIn CHAIN_START_EMOJI s = true ∧
    strIn CHAIN_END_EMOJI s = false)

lemma fieldHasStart_iff (t : Option String) :
    fieldHasStart t = true ↔
      ∃ s, t = some s ∧ strIn CHAIN_START_EMOJI s = true ∧
        strIn CHAIN_END_EMOJI s = false := by
  cases t with
  | none => simp [fieldHasStart, truthy]
  | some s =>
    by_cases hs : s = ""
    · subst hs
      simp [fieldHasStart, truthy, strIn_start_empty]
    · simp [fieldHasStart, truthy, hs]

/-- C6: `has_chain_start_emoji` holds iff one of the two text fields is
present, contains the start marker and does not contain the end marker —
the check is per field, so either field alone suffices even when the
other contains the end marker, and a missing field never contributes. -/
theorem start_marker_iff_spec (a : Activity) :
    has_chain_start_emoji a = true ↔ startSignalSpec a := by
  unfold has_chain_start_emoji startSignalSpec
  rw [Bool.or_eq_true, fieldHasStart_iff, fieldHasStart_iff]

/-! ### C7: totality of the core -/

/-- C7: the embedded core is built from total functions; in particular
the empty input yields the empty chain list, and an activity with absent
name and description is classified as carrying no marker and is dropped
without error. -/
theorem core_total :
    aggregate_kilometers [] = [] ∧
    ∀ a : Activity, a.name = none → a.description = none →
      has_chain_start_emoji a = false ∧ has_chain_end_emoji a = false ∧
      aggregate_kilometers [a] = [] := by
  refine ⟨?_, ?_⟩
  · unfold aggregate_kilometers sortActs
    rw [List.mergeSort_nil]
    rfl
  · intro a hn hd
    have hs : has_chain_start_emoji a = false := by
      simp [has_chain_start_emoji, fieldHasStart, truthy, hn, hd]
    have he : has_chain_end_emoji a = false := by
      simp [has_chain_end_emoji, fieldHasEnd, truthy, hn, hd]
    refine ⟨hs, he, ?_⟩
    rw [agg_single]
    unfold runSeg
    simp only [List.foldl_cons, List.foldl_nil]
    rw [show (initState : SegState) = ⟨[], none, false⟩ from rfl,
      step_nostart_notin [] none a hs]
    rfl

/-- Concrete activity for the C7 witness: both text fields absent. -/
def actC7 : Activity :=
  { id := 71
    name := none
    description := none
    start_date := 0
    distance := 0
    type := "Ride" }

/-- Witness for C7 at a concrete input. -/
theorem core_total_wit :
    aggregate_kilometers [] = [] ∧
    has_chain_start_emoji actC7 = false ∧ has_chain_end_emoji actC7 = false ∧
    aggregate_kilometers [actC7] = [] :=
  ⟨core_total.1, core_total.2 actC7 rfl rfl⟩

/-! ### C8: the start marker is a prefix of the end marker -/

lemma charsLead_trans {xs ys zs : List Char} (h1 : charsLead xs ys = true)
    (h2 : charsLead ys zs = true) : charsLead xs zs = true := by
  induction xs generalizing ys zs with
  | nil => rfl
  | cons a as ih =>
    cases ys with
    | nil => simp [charsLead] at h1
    | cons b bs =>
      cases zs with
      | nil => simp [charsLead] at h2
      | cons c cs =>
        simp only [charsLead, Bool.and_eq_true, beq_iff_eq] at h1 h2 ⊢
        exact ⟨h1.1.trans h2.1, ih h1.2 h2.2⟩

lemma charsContain_of_lead {xs ys : List Char} (hxy : charsLead xs ys = true) :
    ∀ l, charsContain ys l = true → charsContain xs l = true := by
  intro l
  induction l with
  | nil =>
    intro h
    show charsLead xs [] = true
    exact charsLead_trans hxy h
  | cons b t ih =>
    intro h
    simp only [charsContain, Bool.or_eq_true] at h ⊢
    rcases h with h | h
    · exact Or.inl (charsLead_trans hxy h)
    · exact Or.inr (ih h)

/-- C8: the start-marker character sequence occurs at the head of the
end-marker character sequence; consequently any activity whose name
contains the end marker (description absent) also has the start marker
occurring in the name, yet `has_chain_end_emoji` is true while
`has_chain_start_emoji` is false — only the exclusion clause prevents an
end-marked field from signalling a start. -/
theorem start_marker_in_end_marker :
    charsLead CHAIN_START_EMOJI.toList CHAIN_END_EMOJI.toList = true ∧
    ∀ (a : Activity) (s : String), a.name = some s → a.description = none →
      strIn CHAIN_END_EMOJI s = true →
      strIn CHAIN_START_EMOJI s = true ∧
      has_chain_end_emoji a = true ∧ has_chain_start_emoji a = false := by
  have hlead : charsLead CHAIN_START_EMOJI.toList CHAIN_END_EMOJI.toList = true := by
    decide
  refine ⟨hlead, ?_⟩
  intro a s hn hd hend
  have hstart : strIn CHAIN_START_EMOJI s = true :=
    charsContain_of_lead hlead s.toList hend
  have hsne : (s == "") = false := by
    rcases hbs : s == "" with _ | _
    · rfl
    · exfalso
      have hs0 : s = "" := by simpa using hbs
      subst hs0
      rw [strIn_end_empty] at hend
      simp at hend
  refine ⟨hstart, ?_, ?_⟩
  · simp [has_chain_end_emoji, fieldHasEnd, truthy, hn, hsne, hend]
  · simp [has_chain_start_emoji, fieldHasStart, truthy, hn, hd, hend]

/-- Concrete activity for the C8 witness: end marker in the name only. -/
def actC8 : Activity :=
  { id := 81
    name := some "ride over ⛓️‍💥"
    description := none
    start_date := 0
    distance := 0
    type := "Ride" }

/-- Witness for C8 at a concrete input. -/
theorem start_marker_in_end_marker_wit :
    strIn CHAIN_END_EMOJI "ride over ⛓️‍💥" = true ∧
    strIn CHAIN_START_EMOJI "ride over ⛓️‍💥" = true ∧
    has_chain_end_emoji actC8 = true ∧ has_chain_start_emoji actC8 = false := by
  have h := start_marker_in_end_marker.2 actC8 "ride over ⛓️‍💥" rfl rfl (by decide)
  exact ⟨by decide, h.1, h.2.1, h.2.2⟩

/-! ### C9: the argument list is sorted in place -/

/-- Concrete activities for the C9 frame effect, listed out of order. -/
def actC9a : Activity :=
  { id := 91
    name := none
    description := none
    start_date := 1
    distance := 0
    type := "Ride" }

def actC9b : Activity :=
  { id := 92
    name := none
    description := none
    start_date := 2
    distance := 0
    type := "Ride" }

/-- C9: `aggregate_kilometers` sorts its argument list in place (source
line 108 calls `activities.sort(...)` on the caller's list), so the
caller-visible post-call list — the first component of
`aggregate_kilometers_frame` — is the date-sorted permutation of the
input, not the original order: it is sorted and a permutation for every
input, and at a concrete out-of-order input it differs from the input. -/
theorem sort_in_place_frame :
    (∀ l : List Activity,
      (aggregate_kilometers_frame l).1 = sortActs l ∧
      (aggregate_kilometers_frame l).1.Perm l ∧
      (aggregate_kilometers_frame l).1.Pairwise
        (fun p q => p.start_date ≤ q.start_date) ∧
      (aggregate_kilometers_frame l).2 = aggregate_kilometers l) ∧
    (aggregate_kilometers_frame [actC9b, actC9a]).1 ≠ [actC9b, actC9a] := by
  constructor
  · intro l
    exact ⟨rfl, List.mergeSort_perm l leDate, sortActs_pairwise l, rfl⟩
  · intro hcontra
    have hpair := sortActs_pairwise [actC9b, actC9a]
    have h1 : (aggregate_kilometers_frame [actC9b, actC9a]).1 =
        sortActs [actC9b, actC9a] := rfl
    rw [h1] at hcontra
    rw [hcontra] at hpair
    have h21 := (List.pairwise_cons.mp hpair).1 actC9a
      (List.mem_singleton.mpr rfl)
    exact absurd h21 (by decide)

/-- Witness for C9: the universally quantified part applied at a
concrete input. -/
theorem sort_in_place_frame_wit :
    (aggregate_kilometers_frame [actC9a]).1 = sortActs [actC9a] ∧
    (aggregate_kilometers_frame [actC9a]).1.Perm [actC9a] ∧
    (aggregate_kilometers_frame [actC9a]).1.Pairwise
      (fun p q => p.start_date ≤ q.start_date) ∧
    (aggregate_kilometers_frame [actC9a]).2 = aggregate_kilometers [actC9a] :=
  sort_in_place_frame.1 [actC9a]

/-! ### C10: the renderer divides by a zero chain total -/

/-- Concrete activity for C10: start marker, distance 0 m — this is
valid input (distances are non-negative). -/
def actC10 : Activity :=
  { id := 101
    name := some "⛓️ zero ride"
    description := none
    start_date := 0
    distance := 0
    type := "Ride" }

/-- The chain the segmenter emits for `actC10`: one member,
`total_km = 0`. -/
def chC10 : Chain :=
  { start_date := 0
    end_date := 0
    activities := [{ id := 101
                     name := some "⛓️ zero ride"
                     date := 0
                     distance_km := 0
                     is_chain_start := true
                     is_chain_end := false }]
    total_km := 0 }

lemma agg_actC10 : aggregate_kilometers [actC10] = [chC10] := by
  have hs : has_chain_start_emoji actC10 = true := by decide
  have he : has_chain_end_emoji actC10 = false := by decide
  have hk : kmOf actC10 = 0 := by simp [kmOf, actC10]
  rw [agg_single]
  unfold runSeg
  simp only [List.foldl_cons, List.foldl_nil]
  rw [show (initState : SegState) = ⟨[], none, false⟩ from rfl,
    step_start_noend [] none false actC10 hs he]
  simp only [finalChains, sealOpen, addEntry, freshChain, entryOf, hs, he, hk,
    round2_zero, List.nil_append, zero_add]
  simp [actC10, chC10]

/-- C10: `generate_html` divides each member's running total by the
chain's `total_km`; on the valid segmenter output containing a chain
whose members all have distance 0 — so `total_km = 0` — the division
raises `ZeroDivisionError`, so the renderer is not total over the
segmenter's output domain. -/
theorem renderer_div_by_zero :
    (aggregate_kilometers [actC10]).map Chain.total_km = [0] ∧
    (aggregate_kilometers [actC10]).map (fun c => c.activities.length) = [1] ∧
    generate_html_progress (aggregate_kilometers [actC10]) =
      Except.error "ZeroDivisionError" := by
  rw [agg_actC10]
  refine ⟨by simp [chC10], by simp [chC10], ?_⟩
  simp [generate_html_progress, chainProgress, chC10, progressRows, pyDivQ]

end StravaChain
